import Mathlib

/-
Verification of the voice-to-text push-to-talk pipeline.

Shallow embedding of:
  - src/voice-to-text-tauri/src/deepgram.ts  (float32ToLinear16, DeepgramClient)
  - src/voice-to-text-tauri/src/audio.ts     (AudioCapture)
  - src/unnamed/part_000                     (startPushToTalk / stopPushToTalk coordinator)

Float samples are modelled as rationals.  For Float32 inputs promoted to
Float64 (JS numbers), both products s * 0x8000 and s * 0x7fff are exact
(at most 24 + 16 significant bits), so rational arithmetic is faithful here.
DataView.setInt16 converts its numeric argument by truncation toward zero
followed by reduction mod 2^16 (ECMAScript ToInt16).
-/

namespace VTT

/-- Clamp of one sample, from deepgram.ts line 20: s = Math.max(-1, Math.min(1, s)). -/
def clampSample (s : ℚ) : ℚ := max (-1) (min 1 s)

/-- Truncation toward zero, the integer conversion performed by DataView.setInt16. -/
def truncQ (q : ℚ) : ℤ := if q < 0 then ⌈q⌉ else ⌊q⌋

/-- Asymmetric scaling, deepgram.ts line 22: const int16 = s < 0 ? s * 0x8000 : s * 0x7fff. -/
def scaledSample (s : ℚ) : ℚ :=
  if clampSample s < 0 then clampSample s * 32768 else clampSample s * 32767

/-- The signed 16-bit integer stored for one sample. -/
def int16OfSample (s : ℚ) : ℤ := truncQ (scaledSample s)

/-- The 16-bit two's-complement pattern stored for one sample. -/
def uint16OfSample (s : ℚ) : ℕ := ((int16OfSample s) % 65536).toNat

/-- The two little-endian bytes of one sample, deepgram.ts line 23: view.setInt16(i * 2, int16, true). -/
def bytesOfSample (s : ℚ) : List ℕ := [uint16OfSample s % 256, uint16OfSample s / 256]

/-- float32ToLinear16, deepgram.ts lines 13-27: one 2-byte little-endian
signed 16-bit value per sample, in sample order. -/
def float32ToLinear16 (chunk : List ℚ) : List ℕ := chunk.bind bytesOfSample

/-- Reading back a little-endian signed 16-bit value from a byte pair. -/
def decodeInt16LE (lo hi : ℕ) : ℤ :=
  if lo + 256 * hi < 32768 then ((lo + 256 * hi : ℕ) : ℤ)
  else ((lo + 256 * hi : ℕ) : ℤ) - 65536

/-- Reverse decode of the asymmetric scaling (int16 to float), per the spec's
round-trip property in section 8. -/
def linear16ToFloat (i : ℤ) : ℚ :=
  if i < 0 then (i : ℚ) / 32768 else (i : ℚ) / 32767

theorem clampSample_mem (s : ℚ) : -1 ≤ clampSample s ∧ clampSample s ≤ 1 := by
  unfold clampSample
  exact ⟨le_max_left _ _, max_le (by norm_num) (min_le_left _ _)⟩

theorem int16OfSample_range (s : ℚ) :
    -32768 ≤ int16OfSample s ∧ int16OfSample s ≤ 32767 := by
  obtain ⟨hl, hr⟩ := clampSample_mem s
  unfold int16OfSample scaledSample truncQ
  by_cases hc : clampSample s < 0
  · rw [if_pos hc]
    have hq : clampSample s * 32768 < 0 := by nlinarith
    rw [if_pos hq]
    constructor
    · have h1 : (-32768 : ℚ) ≤ clampSample s * 32768 := by nlinarith
      have h2 : (-32768 : ℚ) ≤ (⌈clampSample s * 32768⌉ : ℚ) :=
        le_trans h1 (Int.le_ceil _)
      exact_mod_cast h2
    · have h3 : ⌈clampSample s * 32768⌉ ≤ 0 := Int.ceil_le.mpr (by push_cast; linarith)
      omega
  · rw [if_neg hc]
    push_neg at hc
    have hq : ¬ clampSample s * 32767 < 0 := by nlinarith
    rw [if_neg hq]
    constructor
    · have h1 : (0 : ℤ) ≤ ⌊clampSample s * 32767⌋ := by
        apply Int.floor_nonneg.mpr; nlinarith
      omega
    · have h2 : ⌊clampSample s * 32767⌋ ≤ ⌊(32767 : ℚ)⌋ := by
        apply Int.floor_le_floor; nlinarith
      have h3 : ⌊(32767 : ℚ)⌋ = 32767 := by
        norm_num
      omega

theorem decodeInt16LE_uint16 (t : ℤ) (h1 : -32768 ≤ t) (h2 : t ≤ 32767) :
    decodeInt16LE ((t % 65536).toNat % 256) ((t % 65536).toNat / 256) = t := by
  unfold decodeInt16LE
  split_ifs with h <;> omega

theorem float32ToLinear16_length (chunk : List ℚ) :
    (float32ToLinear16 chunk).length = 2 * chunk.length := by
  induction chunk with
  | nil => rfl
  | cons a tl ih =>
    simp only [float32ToLinear16, List.cons_bind, List.length_append] at *
    simp [bytesOfSample, ih]
    omega

theorem float32ToLinear16_get? (chunk : List ℚ) :
    ∀ (i : ℕ) (s : ℚ), chunk.get? i = some s →
      (float32ToLinear16 chunk).get? (2 * i) = some (uint16OfSample s % 256) ∧
      (float32ToLinear16 chunk).get? (2 * i + 1) = some (uint16OfSample s / 256) := by
  induction chunk with
  | nil => intro i s h; simp at h
  | cons a tl ih =>
    intro i s h
    cases i with
    | zero =>
      simp only [List.get?] at h
      injection h with h
      subst h
      constructor <;> rfl
    | succ n =>
      simp only [List.get?] at h
      have hbind : float32ToLinear16 (s :: tl) = bytesOfSample s ++ float32ToLinear16 tl := rfl
      have hlen : (bytesOfSample a).length = 2 := rfl
      have h1 : 2 * Nat.succ n = 2 * n + 2 := by omega
      obtain ⟨g1, g2⟩ := ih n s h
      constructor
      · have : (float32ToLinear16 (a :: tl)).get? (2 * Nat.succ n)
            = (float32ToLinear16 tl).get? (2 * Nat.succ n - 2) := by
          apply List.get?_append_right
          omega
        rw [this, h1]
        simpa using g1
      · have : (float32ToLinear16 (a :: tl)).get? (2 * Nat.succ n + 1)
            = (float32ToLinear16 tl).get? (2 * Nat.succ n + 1 - 2) := by
          apply List.get?_append_right
          omega
        rw [this, h1]
        simpa using g2

/-- Claim C3: the encoder returns exactly 2 bytes per sample; the i-th
little-endian signed 16-bit value is the i-th sample clamped to [-1, 1] then
scaled by 32768 (negative) or 32767 (non-negative) and converted to a signed
16-bit integer; the empty block yields the empty byte sequence. -/
theorem float32ToLinear16_spec (chunk : List ℚ) :
    (float32ToLinear16 chunk).length = 2 * chunk.length
    ∧ float32ToLinear16 ([] : List ℚ) = []
    ∧ (∀ (i : ℕ) (s : ℚ), chunk.get? i = some s →
        (float32ToLinear16 chunk).get? (2 * i) = some (uint16OfSample s % 256)
        ∧ (float32ToLinear16 chunk).get? (2 * i + 1) = some (uint16OfSample s / 256)
        ∧ decodeInt16LE (uint16OfSample s % 256) (uint16OfSample s / 256) = int16OfSample s
        ∧ -32768 ≤ int16OfSample s ∧ int16OfSample s ≤ 32767) := by
  refine ⟨float32ToLinear16_length chunk, rfl, ?_⟩
  intro i s h
  obtain ⟨g1, g2⟩ := float32ToLinear16_get? chunk i s h
  obtain ⟨r1, r2⟩ := int16OfSample_range s
  exact ⟨g1, g2, decodeInt16LE_uint16 _ r1 r2, r1, r2⟩

/-- Witness for C3 at the concrete one-sample block [1/2]. -/
theorem float32ToLinear16_spec_witness :
    ([(1 : ℚ)/2].get? 0 = some ((1 : ℚ)/2))
    ∧ ((float32ToLinear16 [(1 : ℚ)/2]).get? 0 = some (uint16OfSample ((1 : ℚ)/2) % 256)
        ∧ (float32ToLinear16 [(1 : ℚ)/2]).get? 1 = some (uint16OfSample ((1 : ℚ)/2) / 256)
        ∧ decodeInt16LE (uint16OfSample ((1 : ℚ)/2) % 256) (uint16OfSample ((1 : ℚ)/2) / 256)
            = int16OfSample ((1 : ℚ)/2)
        ∧ -32768 ≤ int16OfSample ((1 : ℚ)/2) ∧ int16OfSample ((1 : ℚ)/2) ≤ 32767) := by
  refine ⟨rfl, ?_⟩
  have h := (float32ToLinear16_spec [(1 : ℚ)/2]).2.2 0 ((1 : ℚ)/2) rfl
  simpa using h

/-- Claim C4: for every sample in [-1, 1], encoding and then reverse-decoding
recovers the sample to within one quantization step 1/32767. -/
theorem encode_decode_roundtrip (s : ℚ) (h1 : -1 ≤ s) (h2 : s ≤ 1) :
    |linear16ToFloat (int16OfSample s) - s| ≤ 1 / 32767 := by
  have hc : clampSample s = s := by
    unfold clampSample
    rw [min_eq_right h2, max_eq_right h1]
  unfold int16OfSample scaledSample linear16ToFloat truncQ
  rw [hc]
  by_cases hs : s < 0
  · rw [if_pos hs]
    have hq : s * 32768 < 0 := by nlinarith
    rw [if_pos hq]
    have ht1 : (s * 32768 : ℚ) ≤ (⌈s * 32768⌉ : ℚ) := Int.le_ceil _
    have ht2 : ((⌈s * 32768⌉ : ℤ) : ℚ) < s * 32768 + 1 := Int.ceil_lt_add_one _
    by_cases htneg : ⌈s * 32768⌉ < 0
    · rw [if_pos htneg]
      rw [abs_sub_le_iff]
      constructor <;> nlinarith [ht1, ht2]
    · rw [if_neg htneg]
      have hle : ⌈s * 32768⌉ ≤ 0 := Int.ceil_le.mpr (by push_cast; linarith)
      have ht0 : ⌈s * 32768⌉ = 0 := by omega
      rw [ht0]
      have hs' : s * 32768 + 1 > 0 := by
        have := ht2
        rw [ht0] at this
        push_cast at this
        linarith
      rw [abs_sub_le_iff]
      push_cast
      constructor <;> nlinarith
  · rw [if_neg hs]
    push_neg at hs
    have hq : ¬ s * 32767 < 0 := by nlinarith
    rw [if_neg hq]
    have ht0 : (0 : ℤ) ≤ ⌊s * 32767⌋ := by
      apply Int.floor_nonneg.mpr; nlinarith
    have htneg : ¬ ⌊s * 32767⌋ < 0 := by omega
    rw [if_neg htneg]
    have ht1 : ((⌊s * 32767⌋ : ℤ) : ℚ) ≤ s * 32767 := Int.floor_le _
    have ht2 : s * 32767 < (⌊s * 32767⌋ : ℚ) + 1 := Int.lt_floor_add_one _
    rw [abs_sub_le_iff]
    constructor <;> nlinarith

/-- Witness for C4 at the concrete sample 1/3. -/
theorem encode_decode_roundtrip_witness :
    (-1 ≤ (1 : ℚ)/3) ∧ ((1 : ℚ)/3 ≤ 1)
    ∧ |linear16ToFloat (int16OfSample ((1 : ℚ)/3)) - (1 : ℚ)/3| ≤ 1 / 32767 :=
  ⟨by norm_num, by norm_num,
    encode_decode_roundtrip ((1 : ℚ)/3) (by norm_num) (by norm_num)⟩

/-
AudioCapture, audio.ts lines 15-101.  The four nullable handle fields are
modelled as Options; stop() (lines 74-101) performs each release action only
behind a null check and then nulls all four fields, so it is modelled as a
total function returning the list of release actions it performed.
-/

/-- State of AudioCapture: the four nullable internal handles, audio.ts lines 16-19. -/
structure ACSt where
  mediaStream : Option Unit
  audioContext : Option Unit
  sourceNode : Option Unit
  processorNode : Option Unit
deriving DecidableEq

/-- AudioCapture.isActive, audio.ts lines 26-28: audioContext is non-null. -/
def ACSt.isActive (s : ACSt) : Bool := s.audioContext.isSome

/-- AudioCapture.stop, audio.ts lines 74-101: each release action is guarded by
a null check on its handle (so the method cannot throw on a missing handle),
then all four handles are set to null.  The returned list records the release
actions actually performed, in source order. -/
def ACSt.stop (s : ACSt) : ACSt × List String :=
  (⟨none, none, none, none⟩,
    (if s.processorNode.isSome then [("processor.disconnect"), ("processor.onaudioprocess=null")] else [])
    ++ (if s.sourceNode.isSome then [("source.disconnect")] else [])
    ++ (if s.mediaStream.isSome then [("tracks.stop")] else [])
    ++ (if s.audioContext.isSome then [("context.close")] else []))

/-- Outcome of the microphone acquisition environment for one start() call. -/
inductive StartOutcome
  | granted
  | permissionDenied
  | deviceError
deriving DecidableEq

/-- AudioCapture.start, audio.ts lines 30-72: no-op when already active
(line 31); otherwise acquires all four handles.  The Bool reports whether a
fresh acquisition was performed. -/
def ACSt.start (env : StartOutcome) (s : ACSt) : ACSt × Bool :=
  if s.isActive then (s, false)
  else
    match env with
    | StartOutcome.granted => (⟨some (), some (), some (), some ()⟩, true)
    | _ => (s, false)

/-- Claim C10: AudioCapture.stop never throws (it is total, every release
guarded); after it returns all four handles are null, hence isActive is false;
calling it again is a no-op that performs zero release actions; and a
subsequent start() on the stopped state performs a fresh acquisition. -/
theorem audioCapture_stop_spec (s : ACSt) :
    (s.stop.1.mediaStream = none ∧ s.stop.1.audioContext = none
      ∧ s.stop.1.sourceNode = none ∧ s.stop.1.processorNode = none)
    ∧ s.stop.1.isActive = false
    ∧ ACSt.stop s.stop.1 = (s.stop.1, [])
    ∧ ACSt.start StartOutcome.granted s.stop.1 = (⟨some (), some (), some (), some ()⟩, true) := by
  refine ⟨⟨rfl, rfl, rfl, rfl⟩, rfl, rfl, rfl⟩

/-
Inbound message handling, deepgram.ts lines 79-105 (ws.onmessage).
An inbound frame either fails JSON.parse (malformed) or yields a message
with a type field (missing type becomes "" via (data.type || "").toString())
and an optional first-alternative transcript
(data.channel?.alternatives?.[0]?.transcript).
-/

/-- One inbound WebSocket frame after the JSON.parse attempt. -/
inductive InMsg
  | malformed
  | parsed (mtype : String) (alt0Transcript : Option String)
deriving DecidableEq

/-- ASCII lower-casing of one character, as String.prototype.toLowerCase acts
on the ASCII message-type tags involved here. -/
def lowerChar (c : Char) : Char :=
  if ('A' ≤ c ∧ c ≤ 'Z') then Char.ofNat (c.toNat + 32) else c

/-- JS toLowerCase restricted to ASCII, deepgram.ts line 89. -/
def jsToLower (s : String) : String := String.mk (s.data.map lowerChar)

/-- JS String.prototype.trim: drop leading and trailing whitespace. -/
def jsTrim (s : String) : String :=
  String.mk (((s.data.dropWhile Char.isWhitespace).reverse.dropWhile Char.isWhitespace).reverse)

/-- ws.onmessage, deepgram.ts lines 79-105: a malformed frame is dropped in the
catch block (console.error only); a parsed frame forwards the first
alternative's transcript, verbatim, exactly when the lower-cased type is
"results" and the transcript is present and non-empty after trimming.  The
returned list is the sequence of transcript-sink invocations; the first
component is the (unchanged) client state. -/
def transcriptsOfMessage (m : InMsg) : List String :=
  match m with
  | InMsg.malformed => []
  | InMsg.parsed ty tr =>
    if jsToLower ty = ("results") then
      match tr with
      | some t => if jsTrim t = ("") then [] else [t]
      | none => []
    else []

/-- The onmessage handler never touches the socket or any other client state:
it only produces transcript-sink invocations. -/
def handleMessage (m : InMsg) (σ : α) : α × List String := (σ, transcriptsOfMessage m)

/-- Claim C7: a Results-typed frame whose first alternative trims non-empty is
forwarded verbatim (untrimmed) as the single sink invocation; any other
message type produces zero sink invocations; a malformed frame produces zero
sink invocations; and no inbound frame changes the session state. -/
theorem handleMessage_spec {α : Type} (σ : α) (ty : String) (tr : Option String) (t : String) :
    (∀ m : InMsg, (handleMessage m σ).1 = σ)
    ∧ (jsToLower ty = ("results") → tr = some t → jsTrim t ≠ ("") →
        (handleMessage (InMsg.parsed ty tr) σ).2 = [t])
    ∧ (jsToLower ty ≠ ("results") → (handleMessage (InMsg.parsed ty tr) σ).2 = [])
    ∧ (handleMessage InMsg.malformed σ).2 = [] := by
  refine ⟨fun _ => rfl, ?_, ?_, rfl⟩
  · intro h1 h2 h3
    subst h2
    simp only [handleMessage, transcriptsOfMessage]
    rw [if_pos h1, if_neg h3]
  · intro h1
    simp only [handleMessage, transcriptsOfMessage]
    rw [if_neg h1]

/-- Witness for C7: a Results frame with transcript " hi " is forwarded
verbatim (untrimmed); a Metadata frame and a malformed frame produce zero
sink invocations. -/
theorem handleMessage_spec_witness :
    (handleMessage (InMsg.parsed ("Results") (some (" hi "))) (0 : ℕ)).2 = [(" hi ")]
    ∧ (handleMessage (InMsg.parsed ("Metadata") (some ("x"))) (0 : ℕ)).2 = []
    ∧ (handleMessage InMsg.malformed (0 : ℕ)).2 = [] := by
  refine ⟨?_, ?_, ?_⟩
  · exact (handleMessage_spec (0 : ℕ) ("Results") (some (" hi ")) (" hi ")).2.1
      (by decide) rfl (by decide)
  · exact (handleMessage_spec (0 : ℕ) ("Metadata") (some ("x")) ("x")).2.2.1 (by decide)
  · exact (handleMessage_spec (0 : ℕ) ("Metadata") (some ("x")) ("x")).2.2.2

/-
Connection handshake parameters, deepgram.ts lines 49-55: the query parameters
set on wss://api.deepgram.com/v1/listen, in source order.  The sample_rate
value is the string literal "16000" (line 51); audio.ts requests a 16 kHz
AudioContext (lines 45-47) but never reads back the rate the device actually
negotiated, and deepgram.ts never consults AudioCapture at all.
-/

/-- The query parameters set by DeepgramClient.connect, deepgram.ts lines 50-55. -/
def connectUrlParams : List (String × String) :=
  [(("encoding"), ("linear16")),
   (("sample_rate"), ("16000")),
   (("channels"), ("1")),
   (("language"), ("en-US")),
   (("punctuate"), ("true")),
   (("interim_results"), ("true"))]

/-- Modelled from the spec: the sample rate the audio device actually
negotiates for the AudioContext requested at 16 kHz.  Section 4.1 of the spec:
"the device may silently substitute its own native rate"; audio.ts never reads
this value back, so it is an environment parameter here. -/
def audioContextSampleRate (deviceHonorsRequest : Bool) (deviceNativeRate : ℕ) : ℕ :=
  if deviceHonorsRequest then 16000 else deviceNativeRate

/-- Counterexample for C9: with a device whose native rate is 48000 Hz and
which ignores the 16 kHz request, the negotiated rate is 48000 but the
handshake still carries sample_rate=16000, so the sample_rate parameter does
not equal the negotiated rate. -/
theorem connect_sampleRate_counterexample :
    connectUrlParams.lookup ("sample_rate") = some ("16000")
    ∧ audioContextSampleRate false 48000 = 48000
    ∧ toString (audioContextSampleRate false 48000) = ("48000")
    ∧ (("16000") : String) ≠ ("48000") := by
  refine ⟨rfl, rfl, rfl, by decide⟩

/-- Claim C9 (amended): the handshake carries encoding=linear16, channels=1,
language=en-US, punctuate=true, interim_results=true, and sample_rate=16000 —
the requested nominal rate, independent of whatever rate the device actually
negotiated. -/
theorem connectUrlParams_spec :
    connectUrlParams.lookup ("encoding") = some ("linear16")
    ∧ connectUrlParams.lookup ("channels") = some ("1")
    ∧ connectUrlParams.lookup ("language") = some ("en-US")
    ∧ connectUrlParams.lookup ("punctuate") = some ("true")
    ∧ connectUrlParams.lookup ("interim_results") = some ("true")
    ∧ ∀ (_honors : Bool) (_nativeRate : ℕ),
        connectUrlParams.lookup ("sample_rate") = some ("16000") := by
  exact ⟨rfl, rfl, rfl, rfl, rfl, fun _ _ => rfl⟩

/-
Event-loop model of the coordinator (src/unnamed/part_000, startPushToTalk
lines 96-125 and stopPushToTalk lines 127-133) together with the
DeepgramClient socket field (deepgram.ts) and the AudioCapture activity flag.

JavaScript is single-threaded: each external event (a button press, a
WebSocket open/error/close callback, a getUserMedia resolution, an audio
buffer callback) runs synchronously to the next await point.  The suspension
points in the source are exactly: startPushToTalk awaiting connect() (resumed
by ws.onopen / ws.onerror) and awaiting audioCapture.start() (resumed by the
getUserMedia outcome).  finalizeAndClose contains no await, so its body runs
atomically inside the step that calls it.

Sockets are numbered in creation order; sockStatus tracks each WebSocket's
lifecycle (connecting / open / closed).  The observable event log records
socket creations, audio start/stop, binary audio frames sent, Finalize
control messages sent, and socket closes.
-/

/-- Lifecycle of one WebSocket. -/
inductive SockStatus
  | pending
  | opened
  | closed
deriving DecidableEq

/-- Observable events of the pipeline. -/
inductive Ev
  | sockCreated (sid : ℕ)
  | audioStarted
  | audioStopped
  | audioSent (sid : ℕ)
  | finalizeSent (sid : ℕ)
  | sockClosed (sid : ℕ)
deriving DecidableEq

/-- A suspended startPushToTalk invocation: awaiting the connect() promise of
socket sid, or awaiting audioCapture.start(). -/
inductive Cont
  | awaitConn (sid : ℕ)
  | awaitMic
deriving DecidableEq

/-- Global state: the isHolding flag (part_000 line 94), the AudioCapture
activity (audio.ts), the DeepgramClient socket reference (deepgram.ts line 31,
none = null), the set of WebSockets created so far, and the suspended
continuations. -/
structure St where
  isHolding : Bool
  audio : Bool
  client : Option ℕ
  nsocks : ℕ
  sockStatus : ℕ → SockStatus
  conts : List Cont

/-- The state before any event: nothing held, no audio, no socket. -/
def St.init : St :=
  ⟨false, false, none, 0, fun _ => SockStatus.closed, []⟩

/-- DeepgramClient.isConnected, deepgram.ts lines 41-43: socket non-null and
readyState OPEN. -/
def isConnected (σ : St) : Bool :=
  match σ.client with
  | some s => σ.sockStatus s = SockStatus.opened
  | none => false

/-- DeepgramClient.finalizeAndClose, deepgram.ts lines 116-128: no-op when the
socket is null; otherwise try to send the Finalize control message (the send
may fail — sendOk false — and the failure is swallowed by the catch), then
close the socket and null the reference.  The body has no await, so it runs
atomically. -/
def finalizeAndClose (sendOk : Bool) (σ : St) : St × List Ev :=
  match σ.client with
  | none => (σ, [])
  | some s =>
    ({ σ with
        client := none,
        sockStatus := Function.update σ.sockStatus s SockStatus.closed },
     (if sendOk then [Ev.finalizeSent s] else []) ++ [Ev.sockClosed s])

/-- DeepgramClient.connect, deepgram.ts lines 45-66: resolves immediately when
isConnected; otherwise creates a fresh WebSocket (handshake pending) and
suspends the caller on its promise. -/
def connect (σ : St) : St × List Ev :=
  if isConnected σ then (σ, [])
  else
    ({ σ with
        nsocks := σ.nsocks + 1,
        sockStatus := Function.update σ.sockStatus σ.nsocks SockStatus.pending,
        conts := σ.conts ++ [Cont.awaitConn σ.nsocks] },
     [Ev.sockCreated σ.nsocks])

/-- The part of startPushToTalk after connect() resolves (part_000 lines
114-124): await audioCapture.start().  start() returns at once when already
active (audio.ts line 31); otherwise the getUserMedia acquisition is pending
and the invocation suspends. -/
def audioStartCont (σ : St) : St :=
  if σ.audio then σ
  else { σ with conts := σ.conts ++ [Cont.awaitMic] }

/-- DeepgramClient.sendAudioChunk, deepgram.ts lines 109-114: a silent no-op
unless connected; when connected, the encoded bytes go out as one binary
frame and the state is untouched. -/
def sendAudioChunk (chunk : List ℚ) (σ : St) : St × Option (List ℕ) :=
  if !(isConnected σ) || σ.client.isNone then (σ, none)
  else (σ, some (float32ToLinear16 chunk))

/-- External events driving the loop. -/
inductive XEv
  | ptDown
  | ptUp (sendOk : Bool)
  | openEvt (sid : ℕ)
  | errEvt (sid : ℕ)
  | closeEvt (sid : ℕ)
  | micOk
  | micFail (sendOk : Bool)
  | audioTick
deriving DecidableEq

/-- One event-loop turn. -/
def step (e : XEv) (σ : St) : St × List Ev :=
  match e with
  | XEv.ptDown =>
    -- startPushToTalk, part_000 lines 96-125: no-op while holding; otherwise
    -- set holding and call connect().  When already connected the await
    -- resolves at once and the audio-start part runs in the same turn;
    -- otherwise the invocation suspends on the connect promise.
    if σ.isHolding then (σ, [])
    else if isConnected σ then (audioStartCont { σ with isHolding := true }, [])
    else connect { σ with isHolding := true }
  | XEv.ptUp ok =>
    -- stopPushToTalk, part_000 lines 127-133: no-op when not holding;
    -- otherwise clear holding, stop audio synchronously, then run
    -- finalizeAndClose (fire-and-forget, but its body has no await).
    if σ.isHolding then
      ((finalizeAndClose ok { σ with isHolding := false, audio := false }).1,
       Ev.audioStopped :: (finalizeAndClose ok { σ with isHolding := false, audio := false }).2)
    else (σ, [])
  | XEv.openEvt sid =>
    -- ws.onopen, deepgram.ts lines 62-66: assign this.socket, resolve the
    -- connect promise; the suspended startPushToTalk then awaits
    -- audioCapture.start().
    if σ.sockStatus sid = SockStatus.pending then
      if Cont.awaitConn sid ∈ σ.conts then
        (audioStartCont
          { σ with
             sockStatus := Function.update σ.sockStatus sid SockStatus.opened,
             client := some sid,
             conts := σ.conts.erase (Cont.awaitConn sid) }, [])
      else
        ({ σ with
            sockStatus := Function.update σ.sockStatus sid SockStatus.opened,
            client := some sid }, [])
    else (σ, [])
  | XEv.errEvt sid =>
    -- ws.onerror during the handshake, deepgram.ts lines 68-72: the promise
    -- rejects; the catch in startPushToTalk (lines 104-110) clears holding.
    if σ.sockStatus sid = SockStatus.pending then
      if Cont.awaitConn sid ∈ σ.conts then
        ({ σ with
            sockStatus := Function.update σ.sockStatus sid SockStatus.closed,
            conts := σ.conts.erase (Cont.awaitConn sid),
            isHolding := false }, [])
      else
        ({ σ with
            sockStatus := Function.update σ.sockStatus sid SockStatus.closed }, [])
    else (σ, [])
  | XEv.closeEvt sid =>
    -- ws.onclose, deepgram.ts lines 74-77: the transport closed; the client
    -- nulls its reference if it still points at this socket.
    if σ.sockStatus sid = SockStatus.opened then
      ({ σ with
          sockStatus := Function.update σ.sockStatus sid SockStatus.closed,
          client := if σ.client = some sid then none else σ.client },
       [Ev.sockClosed sid])
    else (σ, [])
  | XEv.micOk =>
    -- getUserMedia resolved: the rest of audioCapture.start (audio.ts lines
    -- 43-71) runs and the capture graph is live.
    if Cont.awaitMic ∈ σ.conts then
      ({ σ with audio := true, conts := σ.conts.erase Cont.awaitMic },
       [Ev.audioStarted])
    else (σ, [])
  | XEv.micFail ok =>
    -- getUserMedia rejected: the catch in startPushToTalk (part_000 lines
    -- 117-124) clears holding and awaits finalizeAndClose.
    if Cont.awaitMic ∈ σ.conts then
      finalizeAndClose ok { σ with conts := σ.conts.erase Cont.awaitMic, isHolding := false }
    else (σ, [])
  | XEv.audioTick =>
    -- onaudioprocess (audio.ts lines 57-65) feeds the chunk to
    -- deepgram.sendAudioChunk (part_000 lines 80-82), which transmits only
    -- when connected (deepgram.ts lines 109-114).
    if σ.audio then
      match σ.client with
      | some s =>
        if σ.sockStatus s = SockStatus.opened then (σ, [Ev.audioSent s]) else (σ, [])
      | none => (σ, [])
    else (σ, [])

/-- Run a list of external events from a given state, accumulating the log. -/
def execFrom : St → List Ev → List XEv → St × List Ev
  | σ, log, [] => (σ, log)
  | σ, log, e :: es => execFrom (step e σ).1 (log ++ (step e σ).2) es

/-- Run a list of external events from the idle state. -/
def exec (es : List XEv) : St × List Ev := execFrom St.init [] es

/-- Number of sockets created so far whose lifecycle has not reached closed. -/
def liveSessions (σ : St) : ℕ :=
  ((List.range σ.nsocks).filter (fun i => σ.sockStatus i ≠ SockStatus.closed)).length

/-- Trace property: once a Finalize control message has gone out on socket s,
no audio frame is ever sent on s afterwards. -/
def AfterFinNoAudio (log : List Ev) : Prop :=
  ∀ (s : ℕ) (l1 l2 : List Ev), log = l1 ++ Ev.finalizeSent s :: l2 → Ev.audioSent s ∉ l2

theorem afterFinNoAudio_of_no_fin (E : List Ev) (h : ∀ s, Ev.finalizeSent s ∉ E) :
    AfterFinNoAudio E := by
  intro s l1 l2 heq _
  apply h s
  rw [heq]
  exact List.mem_append_right _ (List.mem_cons_self _ _)

theorem afterFinNoAudio_of_no_audio (E : List Ev) (h : ∀ s, Ev.audioSent s ∉ E) :
    AfterFinNoAudio E := by
  intro s l1 l2 heq hmem
  apply h s
  rw [heq]
  exact List.mem_append_right _ (List.mem_cons_of_mem _ hmem)

theorem afterFinNoAudio_tail (a : Ev) (L : List Ev) (h : AfterFinNoAudio (a :: L)) :
    AfterFinNoAudio L := by
  intro s l1 l2 heq
  exact h s (a :: l1) l2 (by rw [heq]; rfl)

theorem afterFinNoAudio_append (L E : List Ev) (hE : AfterFinNoAudio E) :
    AfterFinNoAudio L → (∀ s, Ev.finalizeSent s ∈ L → Ev.audioSent s ∉ E) →
    AfterFinNoAudio (L ++ E) := by
  induction L with
  | nil => intro _ _; simpa using hE
  | cons a L' ih =>
    intro hL hcross s l1 l2 heq
    cases l1 with
    | nil =>
      simp only [List.nil_append, List.cons_append] at heq
      have ha : a = Ev.finalizeSent s := by injection heq
      have hl : L' ++ E = l2 := by injection heq
      subst ha
      intro hmem
      rw [← hl] at hmem
      rcases List.mem_append.mp hmem with h1 | h2
      · exact hL s [] L' rfl h1
      · exact hcross s (List.mem_cons_self _ _) h2
    | cons b l1' =>
      simp only [List.cons_append] at heq
      have hrest : L' ++ E = l1' ++ Ev.finalizeSent s :: l2 := by injection heq
      exact ih (afterFinNoAudio_tail a L' hL)
        (fun u hu => hcross u (List.mem_cons_of_mem _ hu)) s l1' l2 hrest

/-- Invariant of the reachable states and logs of the event-loop model:
every socket index at or beyond nsocks is (vacuously) closed; the client
reference, when set, points at an open socket below nsocks; every socket a
Finalize was sent on is closed; no audio frame follows a Finalize on the same
socket; and no socket receives two Finalize messages. -/
structure Inv (σ : St) (log : List Ev) : Prop where
  alloc : ∀ s, σ.nsocks ≤ s → σ.sockStatus s = SockStatus.closed
  cli : ∀ s, σ.client = some s → σ.sockStatus s = SockStatus.opened ∧ s < σ.nsocks
  fin : ∀ s, Ev.finalizeSent s ∈ log → σ.sockStatus s = SockStatus.closed ∧ s < σ.nsocks
  afn : AfterFinNoAudio log
  finCount : ∀ s, log.count (Ev.finalizeSent s) ≤ 1

theorem Inv.cast {σ : St} {log : List Ev} (h : Inv σ log) (σ' : St)
    (h1 : σ'.client = σ.client) (h2 : σ'.nsocks = σ.nsocks)
    (h3 : σ'.sockStatus = σ.sockStatus) : Inv σ' log := by
  constructor
  · intro s hs
    rw [h3]
    exact h.alloc s (by rw [h2] at hs; exact hs)
  · intro s hs
    rw [h3, h2]
    exact h.cli s (by rw [h1] at hs; exact hs)
  · intro s hs
    rw [h3, h2]
    exact h.fin s hs
  · exact h.afn
  · exact h.finCount

theorem Inv.appendSilent {σ : St} {log : List Ev} (h : Inv σ log) (E : List Ev)
    (hf : ∀ s, Ev.finalizeSent s ∉ E) (ha : ∀ s, Ev.audioSent s ∉ E) :
    Inv σ (log ++ E) := by
  constructor
  · exact h.alloc
  · exact h.cli
  · intro s hs
    rcases List.mem_append.mp hs with h1 | h2
    · exact h.fin s h1
    · exact absurd h2 (hf s)
  · exact afterFinNoAudio_append log E (afterFinNoAudio_of_no_audio E ha) h.afn
      (fun u _ => ha u)
  · intro s
    rw [List.count_append, List.count_eq_zero.mpr (hf s)]
    simpa using h.finCount s

theorem Inv.appendAudioSent {σ : St} {log : List Ev} (h : Inv σ log) (s : ℕ)
    (hop : σ.sockStatus s = SockStatus.opened) :
    Inv σ (log ++ [Ev.audioSent s]) := by
  constructor
  · exact h.alloc
  · exact h.cli
  · intro t ht
    rcases List.mem_append.mp ht with h1 | h2
    · exact h.fin t h1
    · simp at h2
  · refine afterFinNoAudio_append log _ (afterFinNoAudio_of_no_fin _ (by simp)) h.afn ?_
    intro u hu
    obtain ⟨hcl, _⟩ := h.fin u hu
    simp only [List.mem_singleton]
    intro he
    have hus : u = s := by injection he
    rw [hus, hop] at hcl
    exact SockStatus.noConfusion hcl
  · intro t
    rw [List.count_append]
    have h0 : [Ev.audioSent s].count (Ev.finalizeSent t) = 0 := by simp
    rw [h0]
    simpa using h.finCount t

theorem inv_finalize (ok : Bool) (σ : St) (log : List Ev) (h : Inv σ log) :
    Inv (finalizeAndClose ok σ).1 (log ++ (finalizeAndClose ok σ).2) := by
  cases hc : σ.client with
  | none =>
    simp only [finalizeAndClose, hc]
    simpa using h
  | some s =>
    obtain ⟨hop, hlt⟩ := h.cli s hc
    simp only [finalizeAndClose, hc]
    constructor
    · intro t ht
      simp only at ht ⊢
      rw [Function.update_noteq (by omega : t ≠ s)]
      exact h.alloc t ht
    · intro t ht
      simp at ht
    · intro t hmem
      rcases List.mem_append.mp hmem with h1 | h2
      · obtain ⟨hcl, hlt'⟩ := h.fin t h1
        have hne : t ≠ s := by
          intro he
          rw [he, hop] at hcl
          exact SockStatus.noConfusion hcl
        exact ⟨by simp only; rw [Function.update_noteq hne]; exact hcl, hlt'⟩
      · have ht : t = s := by
          rcases List.mem_append.mp h2 with h3 | h4
          · cases ok with
            | false => simp at h3
            | true => simpa using h3
          · simp at h4
        subst ht
        exact ⟨by simp only; rw [Function.update_same], hlt⟩
    · refine afterFinNoAudio_append log _
        (afterFinNoAudio_of_no_audio _ ?_) h.afn ?_
      · intro u
        cases ok <;> simp
      · intro u _
        cases ok <;> simp
    · intro t
      rw [List.count_append]
      by_cases hts : t = s
      · subst hts
        have h0 : log.count (Ev.finalizeSent t) = 0 := by
          apply List.count_eq_zero.mpr
          intro hmem
          obtain ⟨hcl, _⟩ := h.fin t hmem
          rw [hop] at hcl
          exact SockStatus.noConfusion hcl
        have h1 : ((if ok then [Ev.finalizeSent t] else []) ++ [Ev.sockClosed t]).count
            (Ev.finalizeSent t) ≤ 1 := by
          cases ok <;> simp
        omega
      · have h0 : ((if ok then [Ev.finalizeSent s] else []) ++ [Ev.sockClosed s]).count
            (Ev.finalizeSent t) = 0 := by
          apply List.count_eq_zero.mpr
          cases ok <;> simp [hts]
        rw [h0]
        simpa using h.finCount t

theorem inv_connect (σ : St) (log : List Ev) (h : Inv σ log) :
    Inv (connect σ).1 (log ++ (connect σ).2) := by
  unfold connect
  split
  · simpa using h
  · constructor
    · intro t ht
      simp only at ht ⊢
      rw [Function.update_noteq (by omega : t ≠ σ.nsocks)]
      exact h.alloc t (by omega)
    · intro t ht
      obtain ⟨hop, hlt⟩ := h.cli t ht
      refine ⟨by simp only; rw [Function.update_noteq (by omega : t ≠ σ.nsocks)]; exact hop, ?_⟩
      simp only
      omega
    · intro t hmem
      rcases List.mem_append.mp hmem with h1 | h2
      · obtain ⟨hcl, hlt⟩ := h.fin t h1
        refine ⟨by simp only; rw [Function.update_noteq (by omega : t ≠ σ.nsocks)]; exact hcl, ?_⟩
        simp only
        omega
      · simp at h2
    · exact afterFinNoAudio_append log _
        (afterFinNoAudio_of_no_audio _ (by simp)) h.afn (fun u _ => by simp)
    · intro t
      rw [List.count_append]
      have h0 : [Ev.sockCreated σ.nsocks].count (Ev.finalizeSent t) = 0 := by simp
      rw [h0]
      simpa using h.finCount t

theorem inv_audioStartCont {σ : St} {log : List Ev} (h : Inv σ log) :
    Inv (audioStartCont σ) log := by
  refine h.cast _ ?_ ?_ ?_ <;> (unfold audioStartCont; split <;> rfl)

theorem step_inv (e : XEv) (σ : St) (log : List Ev) (h : Inv σ log) :
    Inv (step e σ).1 (log ++ (step e σ).2) := by
  cases e with
  | ptDown =>
    by_cases hh : σ.isHolding
    · simp only [step, if_pos hh]
      simpa using h
    · simp only [step, if_neg hh]
      by_cases hc : isConnected σ
      · rw [if_pos hc]
        have h1 : Inv (audioStartCont { σ with isHolding := true }) log :=
          inv_audioStartCont (h.cast { σ with isHolding := true } rfl rfl rfl)
        simpa using h1
      · rw [if_neg hc]
        exact inv_connect _ log (h.cast _ rfl rfl rfl)
  | ptUp ok =>
    by_cases hh : σ.isHolding
    · simp only [step, if_pos hh]
      have h2 : Inv { σ with isHolding := false, audio := false } log :=
        h.cast _ rfl rfl rfl
      have h3 := (h2.appendSilent [Ev.audioStopped] (by simp) (by simp))
      have h4 := inv_finalize ok _ _ h3
      rwa [List.append_assoc] at h4
    · simp only [step, if_neg hh]
      simpa using h
  | openEvt sid =>
    by_cases hp : σ.sockStatus sid = SockStatus.pending
    · have hlt : sid < σ.nsocks := by
        by_contra hge
        rw [h.alloc sid (by omega)] at hp
        exact SockStatus.noConfusion hp
      have hbase : Inv
          { σ with
             sockStatus := Function.update σ.sockStatus sid SockStatus.opened,
             client := some sid } log := by
        constructor
        · intro t ht
          simp only at ht ⊢
          rw [Function.update_noteq (by omega : t ≠ sid)]
          exact h.alloc t ht
        · intro t ht
          simp only at ht
          have hts : t = sid := by
            have := ht.symm
            injection this
          subst hts
          exact ⟨by simp only; rw [Function.update_same], hlt⟩
        · intro t ht
          obtain ⟨hcl, hlt'⟩ := h.fin t ht
          have hne : t ≠ sid := by
            intro he
            rw [he, hp] at hcl
            exact SockStatus.noConfusion hcl
          exact ⟨by simp only; rw [Function.update_noteq hne]; exact hcl, hlt'⟩
        · exact h.afn
        · exact h.finCount
      by_cases hm : Cont.awaitConn sid ∈ σ.conts
      · simp only [step, if_pos hp, if_pos hm]
        have h2 : Inv (audioStartCont
            { σ with
               sockStatus := Function.update σ.sockStatus sid SockStatus.opened,
               client := some sid,
               conts := σ.conts.erase (Cont.awaitConn sid) }) log :=
          inv_audioStartCont (hbase.cast _ rfl rfl rfl)
        simpa using h2
      · simp only [step, if_pos hp, if_neg hm]
        simpa using hbase
    · simp only [step, if_neg hp]
      simpa using h
  | errEvt sid =>
    by_cases hp : σ.sockStatus sid = SockStatus.pending
    · have hlt : sid < σ.nsocks := by
        by_contra hge
        rw [h.alloc sid (by omega)] at hp
        exact SockStatus.noConfusion hp
      have hbase : Inv
          { σ with
             sockStatus := Function.update σ.sockStatus sid SockStatus.closed } log := by
        constructor
        · intro t ht
          simp only at ht ⊢
          by_cases hts : t = sid
          · subst hts
            rw [Function.update_same]
          · rw [Function.update_noteq hts]
            exact h.alloc t ht
        · intro t ht
          obtain ⟨hop, hlt'⟩ := h.cli t ht
          have hne : t ≠ sid := by
            intro he
            rw [he, hp] at hop
            exact SockStatus.noConfusion hop
          exact ⟨by simp only; rw [Function.update_noteq hne]; exact hop, hlt'⟩
        · intro t ht
          obtain ⟨hcl, hlt'⟩ := h.fin t ht
          simp only
          by_cases hts : t = sid
          · subst hts
            exact ⟨by rw [Function.update_same], hlt'⟩
          · exact ⟨by rw [Function.update_noteq hts]; exact hcl, hlt'⟩
        · exact h.afn
        · exact h.finCount
      by_cases hm : Cont.awaitConn sid ∈ σ.conts
      · simp only [step, if_pos hp, if_pos hm]
        exact (hbase.appendSilent [] (by simp) (by simp)).cast _ rfl rfl rfl
      · simp only [step, if_pos hp, if_neg hm]
        simpa using hbase
    · simp only [step, if_neg hp]
      simpa using h
  | closeEvt sid =>
    by_cases hp : σ.sockStatus sid = SockStatus.opened
    · have hlt : sid < σ.nsocks := by
        by_contra hge
        rw [h.alloc sid (by omega)] at hp
        exact SockStatus.noConfusion hp
      simp only [step, if_pos hp]
      constructor
      · intro t ht
        simp only at ht ⊢
        by_cases hts : t = sid
        · subst hts
          rw [Function.update_same]
        · rw [Function.update_noteq hts]
          exact h.alloc t ht
      · intro t ht
        simp only at ht
        by_cases hcs : σ.client = some sid
        · rw [if_pos hcs] at ht
          exact Option.noConfusion ht
        · rw [if_neg hcs] at ht
          obtain ⟨hop, hlt'⟩ := h.cli t ht
          have hne : t ≠ sid := by
            intro he
            rw [he] at ht
            exact hcs ht
          exact ⟨by simp only; rw [Function.update_noteq hne]; exact hop, hlt'⟩
      · intro t ht
        rcases List.mem_append.mp ht with h1 | h2
        · obtain ⟨hcl, hlt'⟩ := h.fin t h1
          have hne : t ≠ sid := by
            intro he
            rw [he, hp] at hcl
            exact SockStatus.noConfusion hcl
          exact ⟨by simp only; rw [Function.update_noteq hne]; exact hcl, hlt'⟩
        · simp at h2
      · exact afterFinNoAudio_append log _
          (afterFinNoAudio_of_no_audio _ (by simp)) h.afn (fun u _ => by simp)
      · intro t
        rw [List.count_append]
        have h0 : [Ev.sockClosed sid].count (Ev.finalizeSent t) = 0 := by simp
        rw [h0]
        simpa using h.finCount t
    · simp only [step, if_neg hp]
      simpa using h
  | micOk =>
    by_cases hm : Cont.awaitMic ∈ σ.conts
    · simp only [step, if_pos hm]
      exact (h.appendSilent [Ev.audioStarted] (by simp) (by simp)).cast _ rfl rfl rfl
    · simp only [step, if_neg hm]
      simpa using h
  | micFail ok =>
    by_cases hm : Cont.awaitMic ∈ σ.conts
    · simp only [step, if_pos hm]
      exact inv_finalize ok _ log (h.cast _ rfl rfl rfl)
    · simp only [step, if_neg hm]
      simpa using h
  | audioTick =>
    by_cases ha : σ.audio
    · simp only [step, if_pos ha]
      cases hc : σ.client with
      | none => simpa using h
      | some s =>
        dsimp only
        by_cases hop : σ.sockStatus s = SockStatus.opened
        · rw [if_pos hop]
          exact h.appendAudioSent s hop
        · rw [if_neg hop]
          simpa using h
    · simp only [step, if_neg ha]
      simpa using h

theorem execFrom_inv (es : List XEv) :
    ∀ (σ : St) (log : List Ev), Inv σ log →
      Inv (execFrom σ log es).1 (execFrom σ log es).2 := by
  induction es with
  | nil => intro σ log h; simpa [execFrom] using h
  | cons e es ih =>
    intro σ log h
    simp only [execFrom]
    exact ih _ _ (step_inv e σ log h)

theorem init_inv : Inv St.init [] := by
  constructor
  · intro s _
    rfl
  · intro s hs
    exact Option.noConfusion hs
  · intro s hs
    simp at hs
  · intro s l1 l2 heq
    cases l1 <;> simp at heq
  · intro s
    simp

theorem exec_inv (es : List XEv) : Inv (exec es).1 (exec es).2 :=
  execFrom_inv es St.init [] init_inv

/-- Counterexample for C1: the trace activate, deactivate, activate — with the
first connect handshake still unresolved — reaches a state with two live
sessions.  The deactivate's finalizeAndClose is a no-op (this.socket is still
null during the handshake), so session 0 never reaches Closed, yet the second
activate begins connecting session 1: the log shows sockCreated 1 emitted
while session 0 is still pending. -/
theorem activate_overlap_counterexample :
    liveSessions ((exec [XEv.ptDown, XEv.ptUp true, XEv.ptDown]).1) = 2
    ∧ ((exec [XEv.ptDown, XEv.ptUp true, XEv.ptDown]).1).sockStatus 0 = SockStatus.pending
    ∧ (exec [XEv.ptDown, XEv.ptUp true, XEv.ptDown]).2
        = [Ev.sockCreated 0, Ev.audioStopped, Ev.sockCreated 1] := by
  refine ⟨rfl, rfl, rfl⟩

/-- Claim C1 (amended): activate() never begins connecting a new session while
the client is connected to a previous one (a new WebSocket is created only
when isConnected is false), and deactivate() while holding completes its
teardown synchronously — the client's socket reference is null when the
deactivate turn ends, so no teardown is ever outstanding across turns.  The
serialization fails only against a previous session whose connect handshake is
still pending (see the counterexample). -/
theorem activate_serialization :
    (∀ (σ : St) (sid : ℕ), Ev.sockCreated sid ∈ (step XEv.ptDown σ).2 → isConnected σ = false)
    ∧ (∀ (σ : St) (ok : Bool), σ.isHolding = true → ((step (XEv.ptUp ok) σ).1).client = none) := by
  constructor
  · intro σ sid h
    by_cases hh : σ.isHolding
    · simp only [step, if_pos hh] at h
      simp at h
    · simp only [step, if_neg hh] at h
      by_cases hc : isConnected σ
      · rw [if_pos hc] at h
        simp at h
      · cases hcb : isConnected σ with
        | false => rfl
        | true => exact absurd hcb hc
  · intro σ ok hh
    simp only [step, if_pos hh]
    cases hcl : ({ σ with isHolding := false, audio := false } : St).client with
    | none => simp only [finalizeAndClose, hcl]
    | some s => simp only [finalizeAndClose, hcl]

/-- Witness for C1 (amended): the first part applied in the double-activate
state (where the new socket is indeed created with isConnected false), the
second applied to a holding state with an open session. -/
theorem activate_serialization_witness :
    (Ev.sockCreated 1 ∈ (step XEv.ptDown ((exec [XEv.ptDown, XEv.ptUp true]).1)).2
      ∧ isConnected ((exec [XEv.ptDown, XEv.ptUp true]).1) = false)
    ∧ (((step (XEv.ptUp true)
          ⟨true, true, some 0, 1, Function.update (fun _ => SockStatus.closed) 0 SockStatus.opened, []⟩).1).client
        = none) := by
  refine ⟨⟨by decide, ?_⟩, ?_⟩
  · exact activate_serialization.1 ((exec [XEv.ptDown, XEv.ptUp true]).1) 1 (by decide)
  · exact activate_serialization.2
      ⟨true, true, some 0, 1, Function.update (fun _ => SockStatus.closed) 0 SockStatus.opened, []⟩
      true rfl

/-- Counterexample for C8: starting from the idle client, one connect() call
leaves the session Connecting (socket 0 pending, this.socket still null); a
second connect() call in that state is not a no-op — it creates a second
WebSocket (sockCreated 1), because the isConnected guard only detects an
already-open socket. -/
theorem connect_connecting_counterexample :
    ((connect St.init).1).sockStatus 0 = SockStatus.pending
    ∧ ((connect St.init).1).client = none
    ∧ (connect ((connect St.init).1)).2 = [Ev.sockCreated 1]
    ∧ ((connect ((connect St.init).1)).1).nsocks = 2 := by
  refine ⟨rfl, rfl, rfl, rfl⟩

/-- Claim C8 (amended): connect() while the session is Streaming (socket
assigned and open) is a no-op — it opens no second connection and leaves the
state unchanged.  (While merely Connecting it is not a no-op; see the
counterexample.) -/
theorem connect_noop_when_streaming (σ : St) (s : ℕ)
    (h1 : σ.client = some s) (h2 : σ.sockStatus s = SockStatus.opened) :
    connect σ = (σ, []) := by
  unfold connect
  rw [if_pos]
  unfold isConnected
  rw [h1]
  simp [h2]

/-- Witness for C8 (amended) at a concrete streaming state. -/
theorem connect_noop_when_streaming_witness :
    connect ⟨true, true, some 0, 1,
        Function.update (fun _ => SockStatus.closed) 0 SockStatus.opened, []⟩
      = (⟨true, true, some 0, 1,
          Function.update (fun _ => SockStatus.closed) 0 SockStatus.opened, []⟩, []) :=
  connect_noop_when_streaming _ 0 rfl (by decide)

/-- Claim C5: finalizeAndClose is idempotent (no-op when the socket is already
gone, and a second call after any first call is a no-op); every call on a
state with a socket ends with the socket reference null (Closed) whether or
not the Finalize send succeeds; on send failure the transport close still
happens; and on success the Finalize frame is immediately followed by the
close.  At most one Finalize is ever sent per socket in any reachable trace
(last conjunct, over the event-loop model). -/
theorem finalizeAndClose_spec :
    (∀ (σ : St) (ok : Bool), σ.client = none → finalizeAndClose ok σ = (σ, []))
    ∧ (∀ (σ : St) (ok : Bool), ((finalizeAndClose ok σ).1).client = none)
    ∧ (∀ (σ : St) (ok ok' : Bool),
        finalizeAndClose ok' ((finalizeAndClose ok σ).1) = (((finalizeAndClose ok σ).1), []))
    ∧ (∀ (σ : St) (s : ℕ), σ.client = some s →
        ((finalizeAndClose false σ).1).sockStatus s = SockStatus.closed
        ∧ (finalizeAndClose false σ).2 = [Ev.sockClosed s]
        ∧ (finalizeAndClose true σ).2 = [Ev.finalizeSent s, Ev.sockClosed s])
    ∧ (∀ (es : List XEv) (s : ℕ), ((exec es).2).count (Ev.finalizeSent s) ≤ 1) := by
  have hnone : ∀ (σ : St) (ok : Bool), σ.client = none → finalizeAndClose ok σ = (σ, []) := by
    intro σ ok h
    simp only [finalizeAndClose, h]
  have hclosed : ∀ (σ : St) (ok : Bool), ((finalizeAndClose ok σ).1).client = none := by
    intro σ ok
    cases h : σ.client with
    | none => simp only [finalizeAndClose, h]
    | some s => simp only [finalizeAndClose, h]
  refine ⟨hnone, hclosed, ?_, ?_, ?_⟩
  · intro σ ok ok'
    exact hnone _ ok' (hclosed σ ok)
  · intro σ s h
    simp only [finalizeAndClose, h]
    exact ⟨Function.update_same _ _ _, rfl, rfl⟩
  · intro es s
    exact (exec_inv es).finCount s

/-- Witness for C5 at concrete states: a socketless state (no-op), an open
session closed with the send failing, and a concrete trace. -/
theorem finalizeAndClose_spec_witness :
    (finalizeAndClose true St.init = (St.init, []))
    ∧ ((finalizeAndClose false
          ⟨false, false, some 0, 1,
            Function.update (fun _ => SockStatus.closed) 0 SockStatus.opened, []⟩).2
        = [Ev.sockClosed 0])
    ∧ ((exec [XEv.ptDown, XEv.openEvt 0, XEv.micOk, XEv.ptUp true]).2).count (Ev.finalizeSent 0) ≤ 1 := by
  refine ⟨?_, ?_, ?_⟩
  · exact finalizeAndClose_spec.1 St.init true rfl
  · exact (finalizeAndClose_spec.2.2.2.1
      ⟨false, false, some 0, 1,
        Function.update (fun _ => SockStatus.closed) 0 SockStatus.opened, []⟩ 0 rfl).2.1
  · exact finalizeAndClose_spec.2.2.2.2 [XEv.ptDown, XEv.openEvt 0, XEv.micOk, XEv.ptUp true] 0

/-- Claim C6: sendAudioChunk is a silent no-op that transmits nothing and
leaves the state unchanged whenever the session is not Streaming (no socket,
or socket not open); exactly when connected it transmits the encoded bytes as
one binary frame, still leaving the state unchanged.  It is a total function,
so it never throws. -/
theorem sendAudioChunk_spec (σ : St) (chunk : List ℚ) :
    ((sendAudioChunk chunk σ).1 = σ)
    ∧ (isConnected σ = false → (sendAudioChunk chunk σ).2 = none)
    ∧ (isConnected σ = true → (sendAudioChunk chunk σ).2 = some (float32ToLinear16 chunk)) := by
  refine ⟨?_, ?_, ?_⟩
  · unfold sendAudioChunk
    split <;> rfl
  · intro h
    unfold sendAudioChunk
    rw [if_pos]
    simp [h]
  · intro h
    have hcl : σ.client.isNone = false := by
      unfold isConnected at h
      cases hc : σ.client with
      | none => rw [hc] at h; simp at h
      | some s => rfl
    unfold sendAudioChunk
    rw [if_neg]
    simp [h, hcl]

/-- Witness for C6: in the idle state nothing is sent; in a streaming state
the encoded frame goes out. -/
theorem sendAudioChunk_spec_witness :
    ((sendAudioChunk [(1 : ℚ)/2] St.init).2 = none)
    ∧ ((sendAudioChunk [(1 : ℚ)/2]
          ⟨true, true, some 0, 1,
            Function.update (fun _ => SockStatus.closed) 0 SockStatus.opened, []⟩).2
        = some (float32ToLinear16 [(1 : ℚ)/2])) := by
  refine ⟨?_, ?_⟩
  · exact (sendAudioChunk_spec St.init [(1 : ℚ)/2]).2.1 rfl
  · exact (sendAudioChunk_spec
      ⟨true, true, some 0, 1,
        Function.update (fun _ => SockStatus.closed) 0 SockStatus.opened, []⟩
      [(1 : ℚ)/2]).2.2 (by decide)

/-- Claim C2: in every deactivate while holding, the AudioSource stop completes
strictly before any Finalize control message goes out — the deactivate turn's
first observable event is audioStopped and the capture is inactive in the
resulting state, the Finalize (if any) following within the same turn — and,
over every trace of the event-loop model, no audio frame is ever transmitted
on a socket after the Finalize message was sent on it. -/
theorem deactivate_stop_before_finalize :
    (∀ (σ : St) (ok : Bool), σ.isHolding = true →
        ((step (XEv.ptUp ok) σ).2).head? = some Ev.audioStopped
        ∧ ((step (XEv.ptUp ok) σ).1).audio = false)
    ∧ (∀ es : List XEv, AfterFinNoAudio (exec es).2) := by
  constructor
  · intro σ ok hh
    have haud : ∀ (τ : St) (k : Bool), ((finalizeAndClose k τ).1).audio = τ.audio := by
      intro τ k
      cases h : τ.client with
      | none => simp only [finalizeAndClose, h]
      | some s => simp only [finalizeAndClose, h]
    constructor
    · simp only [step, if_pos hh]
      rfl
    · simp only [step, if_pos hh]
      rw [haud]
  · intro es
    exact (exec_inv es).afn

/-- Witness for C2 at a concrete holding, streaming state (the deactivate emits
audioStopped first, then Finalize and close), and at a concrete trace. -/
theorem deactivate_stop_before_finalize_witness :
    (((step (XEv.ptUp true)
        ⟨true, true, some 0, 1,
          Function.update (fun _ => SockStatus.closed) 0 SockStatus.opened, []⟩).2).head?
        = some Ev.audioStopped
      ∧ ((step (XEv.ptUp true)
          ⟨true, true, some 0, 1,
            Function.update (fun _ => SockStatus.closed) 0 SockStatus.opened, []⟩).1).audio
        = false)
    ∧ AfterFinNoAudio
        (exec [XEv.ptDown, XEv.openEvt 0, XEv.micOk, XEv.audioTick, XEv.ptUp true]).2 :=
  ⟨deactivate_stop_before_finalize.1
      ⟨true, true, some 0, 1,
        Function.update (fun _ => SockStatus.closed) 0 SockStatus.opened, []⟩ true rfl,
    deactivate_stop_before_finalize.2
      [XEv.ptDown, XEv.openEvt 0, XEv.micOk, XEv.audioTick, XEv.ptUp true]⟩
